import Mathlib

/-!
Verification of the event store and alert-evaluation logic of the
Event_logger repository (src/app.py, the Flask web app, and src/web_app.py,
the customtkinter GUI).  Both front ends share the same JSON-file-backed
event store; the definitions below are shallow embeddings of the Python
functions, translated directly from the source.

Python `datetime` values are modelled by `Instant`: the calendar-date
string produced by `strftime("%Y-%m-%d")`, the number of seconds since
that day's midnight (all time comparisons in the code happen within one
calendar day, so seconds-of-day arithmetic is exact), and the formatted
`"%Y-%m-%d %H:%M:%S"` timestamp string used for record stamping and
sorting.  String processing (`split`, `strip`, `strptime "%H:%M"`) is
embedded structurally on the underlying character lists.
-/

/-- A Python `datetime.now()` value, restricted to the projections the
code actually uses: `date` is `strftime("%Y-%m-%d")`, `sec` is the number
of seconds since midnight of that date, `stamp` is
`strftime("%Y-%m-%d %H:%M:%S")`. -/
structure Instant where
  date : String
  sec : Nat
  stamp : String
deriving Repr, DecidableEq

/-- An event record, with exactly the fields written by `add_event`
(src/web_app.py lines 121-142, src/app.py lines 147-162), plus the
`last_modified` field that `update_event` / `edit_event` stamp on update
(absent until the first update, hence an `Option`). -/
structure Event where
  id : Nat
  timestamp : String
  date : String
  time_slot : String
  length : String
  client : String
  delivery_type : String
  resource : String
  assigned_to : String
  signature : String
  notes : String
  status : String
  alert_minutes : Int
  alert_triggered : Bool
  last_modified : Option String
deriving Repr, DecidableEq

/-- The caller-supplied fields of a create operation (everything
`add_event` takes as parameters; `id`, `timestamp`, `date`, `status`,
`alert_triggered` are filled in by the store). -/
structure Fields where
  time_slot : String
  length : String
  client : String
  delivery_type : String
  resource : String
  assigned_to : String
  signature : String
  notes : String
  alert_minutes : Int
deriving Repr, DecidableEq

/-- The keyword arguments of `ScheduleLogger.update_event` (src/web_app.py
line 152): a dynamic merge of supplied fields, modelled as one `Option`
per updatable field (`none` = field not supplied). -/
structure UpdateFields where
  time_slot : Option String
  length : Option String
  client : Option String
  delivery_type : Option String
  resource : Option String
  assigned_to : Option String
  signature : Option String
  notes : Option String
  alert_minutes : Option Int
deriving Repr, DecidableEq

/-- The projection of a fired event returned by the web route
`/api/check-alerts` (src/app.py lines 301-308). -/
structure AlertInfo where
  id : Nat
  client : String
  time_slot : String
  resource : String
  delivery_type : String
  notes : String
deriving Repr, DecidableEq

/-! ## Time-slot parsing

`parse_time_slot` (src/web_app.py lines 193-200) and the inline copy in
the web route (src/app.py lines 293-295) compute
`time_slot.split('-')[0].strip()` and feed the result to
`strptime(f"{today} {start}", "%Y-%m-%d %H:%M")`.  On success the value
is a datetime at `today` with the parsed hour and minute; we return the
corresponding seconds-of-day.  `strptime`'s `%H:%M` accepts one or two
digits for the hour (value below 24), a literal colon, and one or two
digits for the minute (value below 60), anchored at both ends. -/

/-- Numeric value of a digit character. -/
def dv (c : Char) : Nat := c.toNat - 48

/-- The characters before the first `-`: Python `s.split('-')[0]`
(the whole string when no `-` occurs). -/
def beforeDash : List Char → List Char
  | [] => []
  | c :: cs => if c = '-' then [] else c :: beforeDash cs

/-- Python `str.strip()`: drop leading and trailing whitespace. -/
def trimChars (l : List Char) : List Char :=
  ((l.dropWhile Char.isWhitespace).reverse.dropWhile Char.isWhitespace).reverse

/-- `strptime` with format `"%H:%M"` (anchored): 1-2 digit hour below 24,
`:`, 1-2 digit minute below 60; result in seconds of day.  The accepted
shapes, by length and colon position, are `h:m`, `h:mm`, `hh:m` and
`hh:mm`; the regex value classes for `%H` and `%M` amount exactly to the
bounds 24 and 60. -/
def parseHM (l : List Char) : Option Nat :=
  match l with
  | [a, b, c] =>
    if b = ':' ∧ a.isDigit ∧ c.isDigit ∧ dv a < 24 ∧ dv c < 60 then
      some (3600 * dv a + 60 * dv c)
    else none
  | [a, b, c, d] =>
    if b = ':' ∧ a.isDigit ∧ c.isDigit ∧ d.isDigit ∧
        dv a < 24 ∧ 10 * dv c + dv d < 60 then
      some (3600 * dv a + 60 * (10 * dv c + dv d))
    else if c = ':' ∧ a.isDigit ∧ b.isDigit ∧ d.isDigit ∧
        10 * dv a + dv b < 24 ∧ dv d < 60 then
      some (3600 * (10 * dv a + dv b) + 60 * dv d)
    else none
  | [a, b, c, d, e] =>
    if c = ':' ∧ a.isDigit ∧ b.isDigit ∧ d.isDigit ∧ e.isDigit ∧
        10 * dv a + dv b < 24 ∧ 10 * dv d + dv e < 60 then
      some (3600 * (10 * dv a + dv b) + 60 * (10 * dv d + dv e))
    else none
  | _ => none

/-- `ScheduleLogger.parse_time_slot` (src/web_app.py lines 193-200) /
the inline parse in `check_alerts` (src/app.py lines 293-295): seconds of
day of the slot start, or `none` when `strptime` raises. -/
def parse_time_slot (time_slot : String) : Option Nat :=
  parseHM (trimChars (beforeDash time_slot.data))

/-! ## The event store

Every mutating operation ends by rewriting the whole backing file
(`_save_events` / `save_json_file`).  Each operation below therefore also
returns the number of file writes it performs, so that persistence
behaviour is part of the model. -/

/-- Largest id occurring in the store (0 when empty); the common value of
both id generators. -/
def maxIds : List Event → Nat
  | [] => 0
  | e :: es => max e.id (maxIds es)

/-- `ScheduleLogger._next_id` (src/web_app.py lines 116-119): 1 on an
empty store, otherwise `max(e['id'] for e in self.events) + 1`. -/
def next_id (events : List Event) : Nat :=
  match events.map (fun e => e.id) with
  | [] => 1
  | x :: xs => xs.foldl max x + 1

/-- The id computation of the web route `add_event` (src/app.py line
140): `max([e['id'] for e in events], default=0) + 1`. -/
def next_id_app (events : List Event) : Nat :=
  maxIds events + 1

/-- `ScheduleLogger.add_event` (src/web_app.py lines 121-142) /
the POST branch of the `add_event` route (src/app.py lines 137-168):
build the record, append it, persist once.  Returns (new store, new
record, number of file writes). -/
def add_event (now : Instant) (f : Fields) (events : List Event) :
    List Event × Event × Nat :=
  let event : Event :=
    { id := next_id events
      timestamp := now.stamp
      date := now.date
      time_slot := f.time_slot
      length := f.length
      client := f.client
      delivery_type := f.delivery_type
      resource := f.resource
      assigned_to := f.assigned_to
      signature := f.signature
      notes := f.notes
      status := "logged"
      alert_minutes := f.alert_minutes
      alert_triggered := false
      last_modified := none }
  (events ++ [event], event, 1)

/-- Python substring test `pat in hay` at the head position. -/
def matchHere : List Char → List Char → Bool
  | [], _ => true
  | _ :: _, [] => false
  | p :: ps, h :: hs => p = h && matchHere ps hs

/-- Python substring test `pat in hay` (anywhere). -/
def occursIn (pat : List Char) : List Char → Bool
  | [] => matchHere pat []
  | c :: hs => matchHere pat (c :: hs) || occursIn pat hs

/-- Sort key of `view_events`: `sorted(..., key=lambda x:
x.get('timestamp', ''), reverse=True)` — descending by timestamp string,
stable. -/
def tsDesc (a b : Event) : Bool := decide (b.timestamp ≤ a.timestamp)

/-- `ScheduleLogger.view_events` (src/web_app.py lines 144-150) / the
`events` route filters (src/app.py lines 117-132): optional exact date
filter, optional case-insensitive client substring filter, result sorted
by timestamp descending.  Python applies a filter only when the argument
is truthy, so an absent-or-empty filter is `none`.  Returns (store after
the call, result, number of file writes). -/
def view_events (dateF clientF : Option String) (events : List Event) :
    List Event × List Event × Nat :=
  let f1 : List Event := match dateF with
    | some d => events.filter (fun e => e.date == d)
    | none => events
  let f2 : List Event := match clientF with
    | some c =>
      f1.filter (fun e =>
        occursIn (c.data.map Char.toLower) (e.client.data.map Char.toLower))
    | none => f1
  (events, f2.mergeSort tsDesc, 0)

/-- `event.update(kwargs)` for the updatable fields (src/web_app.py line
155): supplied fields replace the old values, unsupplied fields are kept;
`id`, `timestamp`, `date`, `status`, `alert_triggered`, `last_modified`
are not among the keyword arguments any caller passes. -/
def mergeFields (p : UpdateFields) (e : Event) : Event :=
  { e with
    time_slot := p.time_slot.getD e.time_slot
    length := p.length.getD e.length
    client := p.client.getD e.client
    delivery_type := p.delivery_type.getD e.delivery_type
    resource := p.resource.getD e.resource
    assigned_to := p.assigned_to.getD e.assigned_to
    signature := p.signature.getD e.signature
    notes := p.notes.getD e.notes
    alert_minutes := p.alert_minutes.getD e.alert_minutes }

/-- `ScheduleLogger.update_event` (src/web_app.py lines 152-159): find
the first record with the given id, merge the supplied fields, stamp
`last_modified`, persist once, return `True`; `False` (and no write) when
the id is absent.  Returns (new store, found flag, number of file
writes). -/
def update_event (stamp : String) (event_id : Nat) (p : UpdateFields) :
    List Event → List Event × Bool × Nat
  | [] => ([], false, 0)
  | e :: es =>
    if e.id = event_id then
      ({ mergeFields p e with last_modified := some stamp } :: es, true, 1)
    else
      let r := update_event stamp event_id p es
      (e :: r.1, r.2.1, r.2.2)

/-- `ScheduleLogger.delete_event` (src/web_app.py lines 161-167): pop the
first record with the given id and persist once, returning `True`;
`False` (and no write) when absent. -/
def delete_event (event_id : Nat) : List Event → List Event × Bool × Nat
  | [] => ([], false, 0)
  | e :: es =>
    if e.id = event_id then (es, true, 1)
    else
      let r := delete_event event_id es
      (e :: r.1, r.2.1, r.2.2)

/-- The `delete_event` web route (src/app.py lines 206-214): filter the
id out, always rewrite the file, always flash the success message —
there is no absent-id check.  Returns (new store, flash message, number
of file writes). -/
def delete_event_route (event_id : Nat) (events : List Event) :
    List Event × String × Nat :=
  (events.filter (fun e => e.id ≠ event_id), "Event deleted successfully!", 1)

/-! ## Alert evaluation

Both evaluators loop over the store; each iteration touches only its own
event, so the loop is embedded as a map (for the updated store) plus a
filterMap (for the fired alerts), with the loop body as an explicit step
function. -/

/-- Loop body of the `check_alerts` route (src/app.py lines 288-312):
skip events not dated today or already triggered; parse the time slot
(a `strptime` failure is caught and skipped); fire when
`alert_time <= now < event_time`, marking the event and collecting its
projection. -/
def stepApp (now : Instant) (e : Event) : Event × Option AlertInfo :=
  if e.date ≠ now.date ∨ e.alert_triggered then (e, none)
  else
    match parse_time_slot e.time_slot with
    | none => (e, none)
    | some slot =>
      if (slot : Int) - e.alert_minutes * 60 ≤ (now.sec : Int) ∧
          (now.sec : Int) < (slot : Int) then
        ({ e with alert_triggered := true },
         some { id := e.id, client := e.client, time_slot := e.time_slot,
                resource := e.resource, delivery_type := e.delivery_type,
                notes := e.notes })
      else (e, none)

/-- Loop body of `ScheduleLogger.check_alerts` (src/web_app.py lines
205-225): same window logic; a fired event is handed to the notification
sink / callback and then marked, and the store is saved immediately
(inside the loop). -/
def stepWeb (now : Instant) (e : Event) : Event × Option Event :=
  if e.date ≠ now.date ∨ e.alert_triggered then (e, none)
  else
    match parse_time_slot e.time_slot with
    | none => (e, none)
    | some slot =>
      if (slot : Int) - e.alert_minutes * 60 ≤ (now.sec : Int) ∧
          (now.sec : Int) < (slot : Int) then
        ({ e with alert_triggered := true }, some e)
      else (e, none)

/-- The `check_alerts` route (src/app.py lines 279-317): one evaluation
pass; the file is rewritten once at the end, and only if at least one
alert fired.  Returns (new store, fired projections, number of file
writes). -/
def check_alerts_app (now : Instant) (events : List Event) :
    List Event × List AlertInfo × Nat :=
  let es := events.map (fun e => (stepApp now e).1)
  let alerts := events.filterMap (fun e => (stepApp now e).2)
  (es, alerts, if alerts.isEmpty then 0 else 1)

/-- `ScheduleLogger.check_alerts` (src/web_app.py lines 202-225): one
evaluation pass; `_save_events()` runs inside the loop, once per fired
event.  Returns (new store, fired events, number of file writes). -/
def check_alerts_web (now : Instant) (events : List Event) :
    List Event × List Event × Nat :=
  let es := events.map (fun e => (stepWeb now e).1)
  let fired := events.filterMap (fun e => (stepWeb now e).2)
  (es, fired, fired.length)

/-- The store state after a sequence of evaluation passes of the web
route, one per instant in the list. -/
def runPassesApp (nows : List Instant) (events : List Event) : List Event :=
  nows.foldl (fun st n => (check_alerts_app n st).1) events

/-- The store state after a sequence of evaluation passes of the GUI
evaluator, one per instant in the list. -/
def runPassesWeb (nows : List Instant) (events : List Event) : List Event :=
  nows.foldl (fun st n => (check_alerts_web n st).1) events

/-- `ScheduleLogger.reset_alerts_for_today` (src/web_app.py lines
248-254): clear `alert_triggered` on every event dated today, persist
once.  Returns (new store, number of file writes). -/
def reset_alerts_for_today (today : String) (events : List Event) :
    List Event × Nat :=
  (events.map (fun e =>
    if e.date = today then { e with alert_triggered := false } else e), 1)

/-! ## CSV export

`export_to_csv` (src/web_app.py lines 169-177) and the `export_csv` route
(src/app.py lines 216-243) build a `csv.DictWriter` whose `fieldnames`
are the keys of the first record, write the header, then write every
record.  `DictWriter` fills a missing key with the empty string but
raises `ValueError` when a record contains a key outside `fieldnames`.
Records are JSON objects; their key order is the dict insertion order of
`add_event`, followed by `last_modified` when an update has stamped
it. -/

/-- A JSON-level field value. -/
inductive Val where
  | s (v : String)
  | n (v : Int)
  | b (v : Bool)
deriving Repr, DecidableEq

/-- The key/value list of an event record, in dict insertion order. -/
def Event.toRecord (e : Event) : List (String × Val) :=
  [("id", Val.n (e.id : Int)), ("timestamp", Val.s e.timestamp),
   ("date", Val.s e.date), ("time_slot", Val.s e.time_slot),
   ("length", Val.s e.length), ("client", Val.s e.client),
   ("delivery_type", Val.s e.delivery_type), ("resource", Val.s e.resource),
   ("assigned_to", Val.s e.assigned_to), ("signature", Val.s e.signature),
   ("notes", Val.s e.notes), ("status", Val.s e.status),
   ("alert_minutes", Val.n e.alert_minutes),
   ("alert_triggered", Val.b e.alert_triggered)] ++
  (match e.last_modified with
   | some t => [("last_modified", Val.s t)]
   | none => [])

/-- Outcome of an export: the empty-store refusal, the `ValueError`
raised by `DictWriter` on a record with a key outside the header, or the
produced table. -/
inductive ExportResult where
  | noEvents
  | fieldError
  | ok (header : List String) (rows : List (List Val))
deriving Repr, DecidableEq

/-- One `DictWriter` data row: the record's value for each header key,
empty string (the `restval`) when the key is missing. -/
def rowOf (header : List String) (r : List (String × Val)) : List Val :=
  header.map (fun k => (((r.find? (fun p => p.1 == k)).map Prod.snd).getD (Val.s "")))

/-- `export_to_csv` / the `export_csv` route: refuse an empty store
("nothing to export"); otherwise header = keys of the first record, one
row per record; `ValueError` when any record has a key outside the
header. -/
def export_csv (events : List Event) : ExportResult :=
  match events with
  | [] => .noEvents
  | e :: _ =>
    let header := (Event.toRecord e).map Prod.fst
    let recs := events.map Event.toRecord
    if recs.all (fun r => r.all (fun p => header.contains p.1)) then
      .ok header (recs.map (rowOf header))
    else .fieldError

/-! ## Operation sequences -/

/-- A store mutation performed through the create/delete surface. -/
inductive StoreOp where
  | add (now : Instant) (f : Fields)
  | del (event_id : Nat)
deriving Repr, DecidableEq

/-- Whether a sequence of operations consists of creates only. -/
def addsOnly (ops : List StoreOp) : Bool :=
  ops.all (fun op => match op with | .add _ _ => true | .del _ => false)

/-- Run a sequence of creates and deletes against the GUI store,
collecting the ids assigned by the creates in order. -/
def runOps : List StoreOp → List Event → List Event × List Nat
  | [], events => (events, [])
  | .add now f :: ops, events =>
    let r := add_event now f events
    let rest := runOps ops r.1
    (rest.1, r.2.1.id :: rest.2)
  | .del i :: ops, events =>
    let r := delete_event i events
    runOps ops r.1

/-! ## Specification-side definitions

These follow the spec's words rather than the source, for comparison
with the embedded code. -/

/-- Decimal value of a digit string. -/
def digitsVal (l : List Char) : Nat := l.foldl (fun a c => 10 * a + dv c) 0

/-- Following the spec's words for the time-slot parser: a valid `HH:MM`
time is one or two digits (hour below 24), a colon, and one or two digits
(minute below 60). -/
def ValidHM (l : List Char) : Prop :=
  ∃ ds1 ds2, l = ds1 ++ ':' :: ds2 ∧
    ds1 ≠ [] ∧ ds1.length ≤ 2 ∧ ds2 ≠ [] ∧ ds2.length ≤ 2 ∧
    (∀ c ∈ ds1, c.isDigit) ∧ (∀ c ∈ ds2, c.isDigit) ∧
    digitsVal ds1 < 24 ∧ digitsVal ds2 < 60

/-- Following the spec's words for the list/filter query: a record
matches when its date equals the date filter (if given) and its client
contains the client filter as a case-insensitive substring (if given). -/
def matchesFilter (dateF clientF : Option String) (e : Event) : Bool :=
  (match dateF with
   | some d => e.date == d
   | none => true) &&
  (match clientF with
   | some c => occursIn (c.data.map Char.toLower) (e.client.data.map Char.toLower)
   | none => true)

/-- Pure field-level outcome of an update: `last_modified` is stamped,
each supplied field takes the supplied value, each unsupplied field and
every field outside the update surface keeps its previous value. -/
def FieldsMerged (stamp : String) (p : UpdateFields) (e e2 : Event) : Prop :=
  e2.last_modified = some stamp ∧
  e2.id = e.id ∧ e2.timestamp = e.timestamp ∧ e2.date = e.date ∧
  e2.status = e.status ∧ e2.alert_triggered = e.alert_triggered ∧
  e2.time_slot = p.time_slot.getD e.time_slot ∧
  e2.length = p.length.getD e.length ∧
  e2.client = p.client.getD e.client ∧
  e2.delivery_type = p.delivery_type.getD e.delivery_type ∧
  e2.resource = p.resource.getD e.resource ∧
  e2.assigned_to = p.assigned_to.getD e.assigned_to ∧
  e2.signature = p.signature.getD e.signature ∧
  e2.notes = p.notes.getD e.notes ∧
  e2.alert_minutes = p.alert_minutes.getD e.alert_minutes

/-- Outcome of a successful update: some position `i` holds the matching
record, the new store has the same length, every other position is
unchanged, and position `i` holds the field-wise merge. -/
def UpdateOutcome (stamp : String) (event_id : Nat) (p : UpdateFields)
    (events : List Event) : Prop :=
  ∃ (i : Nat) (e e2 : Event),
    events[i]? = some e ∧ e.id = event_id ∧
    ((update_event stamp event_id p events).1).length = events.length ∧
    (∀ j, j ≠ i → ((update_event stamp event_id p events).1)[j]? = events[j]?) ∧
    ((update_event stamp event_id p events).1)[i]? = some e2 ∧
    FieldsMerged stamp p e e2

/-! ## Concrete sample data for witnesses and counterexamples -/

/-- 2026-10-12, 13:55:00: 50100 seconds after midnight. -/
def sampleNow : Instant :=
  { date := "2026-10-12", sec := 50100, stamp := "2026-10-12 13:55:00" }

def sampleFields : Fields :=
  { time_slot := "14:00-15:00"
    length := ""
    client := "Acme"
    delivery_type := "standard"
    resource := "van"
    assigned_to := "pat"
    signature := ""
    notes := ""
    alert_minutes := 5 }

/-- The record created by `add_event` on an empty store at `sampleNow`. -/
def sampleEvent : Event := (add_event sampleNow sampleFields []).2.1

def sampleEvent2 : Event := { sampleEvent with id := 2 }

def triggeredEvent : Event := { sampleEvent with alert_triggered := true }

def staleEvent : Event := { sampleEvent with date := "2026-10-11" }

def badSlotEvent : Event := { sampleEvent with time_slot := "all day" }

/-- A record that has been updated once, so it carries `last_modified`. -/
def updatedEvent : Event :=
  { sampleEvent2 with last_modified := some "2026-10-12 15:00:00" }

/-- An update supplying only the client field. -/
def clientUpdate : UpdateFields :=
  { time_slot := none
    length := none
    client := some "NewCo"
    delivery_type := none
    resource := none
    assigned_to := none
    signature := none
    notes := none
    alert_minutes := none }

/-- create, create, delete the id-2 record, create again. -/
def reuseOps : List StoreOp :=
  [StoreOp.add sampleNow sampleFields, StoreOp.add sampleNow sampleFields,
   StoreOp.del 2, StoreOp.add sampleNow sampleFields]

/-- Two creates, no deletes. -/
def addOnlyOps : List StoreOp :=
  [StoreOp.add sampleNow sampleFields, StoreOp.add sampleNow sampleFields]

/-! ## Basic lemmas about the evaluator loop body -/

lemma stepApp_window (now : Instant) (e : Event) (s : Nat)
    (hd : e.date = now.date) (ht : e.alert_triggered = false)
    (hp : parse_time_slot e.time_slot = some s) :
    stepApp now e =
      if (s : Int) - e.alert_minutes * 60 ≤ (now.sec : Int) ∧
          (now.sec : Int) < (s : Int) then
        ({ e with alert_triggered := true },
         some { id := e.id, client := e.client, time_slot := e.time_slot,
                resource := e.resource, delivery_type := e.delivery_type,
                notes := e.notes })
      else (e, none) := by
  simp [stepApp, hd, ht, hp]

lemma stepWeb_window (now : Instant) (e : Event) (s : Nat)
    (hd : e.date = now.date) (ht : e.alert_triggered = false)
    (hp : parse_time_slot e.time_slot = some s) :
    stepWeb now e =
      if (s : Int) - e.alert_minutes * 60 ≤ (now.sec : Int) ∧
          (now.sec : Int) < (s : Int) then
        ({ e with alert_triggered := true }, some e)
      else (e, none) := by
  simp [stepWeb, hd, ht, hp]

lemma stepApp_stale (now : Instant) (e : Event) (hd : e.date ≠ now.date) :
    stepApp now e = (e, none) := by
  simp [stepApp, hd]

lemma stepWeb_stale (now : Instant) (e : Event) (hd : e.date ≠ now.date) :
    stepWeb now e = (e, none) := by
  simp [stepWeb, hd]

lemma stepApp_triggered (now : Instant) (e : Event)
    (ht : e.alert_triggered = true) : stepApp now e = (e, none) := by
  simp [stepApp, ht]

lemma stepWeb_triggered (now : Instant) (e : Event)
    (ht : e.alert_triggered = true) : stepWeb now e = (e, none) := by
  simp [stepWeb, ht]

lemma stepApp_skip (now : Instant) (e : Event)
    (hp : parse_time_slot e.time_slot = none) : stepApp now e = (e, none) := by
  unfold stepApp
  split
  · rfl
  · rw [hp]

lemma stepWeb_skip (now : Instant) (e : Event)
    (hp : parse_time_slot e.time_slot = none) : stepWeb now e = (e, none) := by
  unfold stepWeb
  split
  · rfl
  · rw [hp]

/-- C1: an event dated today, not yet triggered, whose slot parses to
start `s`, is fired by the alert evaluator (either front end) iff
`s - 60 * alertMinutes ≤ now < s`; for slot "14:00-15:00" with
alertMinutes 5 this is exactly `13:55:00 ≤ now < 14:00:00` (seconds of
day 50100 and 50400), so neither 13:54:59 nor 14:00:00 fires. -/
theorem alert_fires_iff_window (now : Instant) (e : Event) (s : Nat)
    (hd : e.date = now.date) (ht : e.alert_triggered = false)
    (hp : parse_time_slot e.time_slot = some s) :
    ((stepApp now e).2.isSome = true ↔
      ((s : Int) - e.alert_minutes * 60 ≤ (now.sec : Int) ∧
        (now.sec : Int) < (s : Int)))
    ∧ ((stepWeb now e).2.isSome = true ↔
      ((s : Int) - e.alert_minutes * 60 ≤ (now.sec : Int) ∧
        (now.sec : Int) < (s : Int)))
    ∧ (e.time_slot = "14:00-15:00" → e.alert_minutes = 5 →
      ((stepApp now e).2.isSome = true ↔ (50100 ≤ now.sec ∧ now.sec < 50400))) := by
  have h1 := stepApp_window now e s hd ht hp
  have h2 := stepWeb_window now e s hd ht hp
  refine ⟨?_, ?_, ?_⟩
  · rw [h1]; split <;> simp_all
  · rw [h2]; split <;> simp_all
  · intro hts ham
    have hparse : parse_time_slot "14:00-15:00" = some 50400 := by decide
    rw [hts, hparse] at hp
    have hs : s = 50400 := (Option.some_inj.mp hp).symm
    subst hs
    rw [h1, ham]
    split
    next h =>
      simp only [Option.isSome_some, true_iff]
      omega
    next h =>
      simp only [Option.isSome_none, Bool.false_eq_true, false_iff]
      omega

/-- Witness for C1: the sample event (slot "14:00-15:00", 5 alert
minutes, dated today) fires at 13:55:00. -/
theorem alert_fires_iff_window_witness :
    (sampleEvent.date = sampleNow.date ∧ sampleEvent.alert_triggered = false ∧
      parse_time_slot sampleEvent.time_slot = some 50400) ∧
    ((stepApp sampleNow sampleEvent).2.isSome = true ↔
      ((50400 : Int) - sampleEvent.alert_minutes * 60 ≤ (sampleNow.sec : Int) ∧
        (sampleNow.sec : Int) < (50400 : Int))) :=
  ⟨⟨by decide, by decide, by decide⟩,
   (alert_fires_iff_window sampleNow sampleEvent 50400 (by decide) (by decide)
     (by decide)).1⟩

lemma filterMap_stepApp_today (now : Instant) (events : List Event) :
    events.filterMap (fun e => (stepApp now e).2) =
      (events.filter (fun x => x.date == now.date)).filterMap
        (fun e => (stepApp now e).2) := by
  induction events with
  | nil => rfl
  | cons x xs ih =>
    by_cases hx : x.date = now.date
    · have hb : (x.date == now.date) = true := beq_iff_eq.mpr hx
      simp only [List.filter_cons, hb, if_pos, List.filterMap_cons, ih]
    · have hb : (x.date == now.date) = false := by
        simpa using hx
      simp only [List.filter_cons, hb, Bool.false_eq_true, if_false,
        List.filterMap_cons, stepApp_stale now x hx, ih]

lemma filterMap_stepWeb_today (now : Instant) (events : List Event) :
    events.filterMap (fun e => (stepWeb now e).2) =
      (events.filter (fun x => x.date == now.date)).filterMap
        (fun e => (stepWeb now e).2) := by
  induction events with
  | nil => rfl
  | cons x xs ih =>
    by_cases hx : x.date = now.date
    · have hb : (x.date == now.date) = true := beq_iff_eq.mpr hx
      simp only [List.filter_cons, hb, if_pos, List.filterMap_cons, ih]
    · have hb : (x.date == now.date) = false := by
        simpa using hx
      simp only [List.filter_cons, hb, Bool.false_eq_true, if_false,
        List.filterMap_cons, stepWeb_stale now x hx, ih]

/-- C5: an event whose date differs from today is never evaluated and
never fires: the loop body leaves it untouched and yields no alert, and
every evaluation pass produces exactly the alerts of the today-dated
subset of the store. -/
theorem stale_event_never_fires (now : Instant) (e : Event)
    (hd : e.date ≠ now.date) :
    stepApp now e = (e, none) ∧ stepWeb now e = (e, none)
    ∧ (∀ events : List Event,
        (check_alerts_app now events).2.1 =
          (check_alerts_app now
            (events.filter (fun x => x.date == now.date))).2.1)
    ∧ (∀ events : List Event,
        (check_alerts_web now events).2.1 =
          (check_alerts_web now
            (events.filter (fun x => x.date == now.date))).2.1) := by
  refine ⟨stepApp_stale now e hd, stepWeb_stale now e hd, ?_, ?_⟩
  · intro events
    simpa [check_alerts_app] using filterMap_stepApp_today now events
  · intro events
    simpa [check_alerts_web] using filterMap_stepWeb_today now events

/-- Witness for C5: an event dated 2026-10-11 is skipped on
2026-10-12. -/
theorem stale_event_never_fires_witness :
    staleEvent.date ≠ sampleNow.date ∧ stepApp sampleNow staleEvent = (staleEvent, none) :=
  ⟨by decide, (stale_event_never_fires sampleNow staleEvent (by decide)).1⟩

/-! ## Helpers for trigger-flag monotonicity -/

lemma check_app_get (now : Instant) (events : List Event) (i : Nat) :
    ((check_alerts_app now events).1)[i]? =
      (events[i]?).map (fun e => (stepApp now e).1) := by
  simp [check_alerts_app]

lemma check_web_get (now : Instant) (events : List Event) (i : Nat) :
    ((check_alerts_web now events).1)[i]? =
      (events[i]?).map (fun e => (stepWeb now e).1) := by
  simp [check_alerts_web]

lemma check_app_preserves_triggered (now : Instant) (events : List Event)
    (i : Nat) (e : Event) (hi : events[i]? = some e)
    (ht : e.alert_triggered = true) :
    ((check_alerts_app now events).1)[i]? = some e := by
  rw [check_app_get, hi]
  simp [stepApp_triggered now e ht]

lemma check_web_preserves_triggered (now : Instant) (events : List Event)
    (i : Nat) (e : Event) (hi : events[i]? = some e)
    (ht : e.alert_triggered = true) :
    ((check_alerts_web now events).1)[i]? = some e := by
  rw [check_web_get, hi]
  simp [stepWeb_triggered now e ht]

lemma runPassesApp_preserves_triggered (nows : List Instant) :
    ∀ (events : List Event) (i : Nat) (e : Event), events[i]? = some e →
      e.alert_triggered = true → (runPassesApp nows events)[i]? = some e := by
  induction nows with
  | nil =>
    intro events i e hi _
    simpa [runPassesApp] using hi
  | cons n ns ih =>
    intro events i e hi ht
    have h1 := check_app_preserves_triggered n events i e hi ht
    simpa [runPassesApp, List.foldl_cons] using
      ih ((check_alerts_app n events).1) i e h1 ht

lemma runPassesWeb_preserves_triggered (nows : List Instant) :
    ∀ (events : List Event) (i : Nat) (e : Event), events[i]? = some e →
      e.alert_triggered = true → (runPassesWeb nows events)[i]? = some e := by
  induction nows with
  | nil =>
    intro events i e hi _
    simpa [runPassesWeb] using hi
  | cons n ns ih =>
    intro events i e hi ht
    have h1 := check_web_preserves_triggered n events i e hi ht
    simpa [runPassesWeb, List.foldl_cons] using
      ih ((check_alerts_web n events).1) i e h1 ht

lemma stepApp_fired_marked (now : Instant) (e : Event)
    (h : (stepApp now e).2.isSome = true) :
    ((stepApp now e).1).alert_triggered = true := by
  by_cases hd : e.date = now.date
  · by_cases ht : e.alert_triggered = true
    · rw [stepApp_triggered now e ht] at h
      simp at h
    · have ht2 : e.alert_triggered = false := by simpa using ht
      cases hp : parse_time_slot e.time_slot with
      | none =>
        rw [stepApp_skip now e hp] at h
        simp at h
      | some s =>
        rw [stepApp_window now e s hd ht2 hp] at h ⊢
        by_cases hw : ((s : Int) - e.alert_minutes * 60 ≤ (now.sec : Int) ∧
            (now.sec : Int) < (s : Int))
        · simp [hw]
        · rw [if_neg hw] at h
          simp at h
  · rw [stepApp_stale now e hd] at h
    simp at h

lemma stepWeb_fired_marked (now : Instant) (e : Event)
    (h : (stepWeb now e).2.isSome = true) :
    ((stepWeb now e).1).alert_triggered = true := by
  by_cases hd : e.date = now.date
  · by_cases ht : e.alert_triggered = true
    · rw [stepWeb_triggered now e ht] at h
      simp at h
    · have ht2 : e.alert_triggered = false := by simpa using ht
      cases hp : parse_time_slot e.time_slot with
      | none =>
        rw [stepWeb_skip now e hp] at h
        simp at h
      | some s =>
        rw [stepWeb_window now e s hd ht2 hp] at h ⊢
        by_cases hw : ((s : Int) - e.alert_minutes * 60 ≤ (now.sec : Int) ∧
            (now.sec : Int) < (s : Int))
        · simp [hw]
        · rw [if_neg hw] at h
          simp at h
  · rw [stepWeb_stale now e hd] at h
    simp at h

lemma update_event_preserves_triggered (stamp : String) (event_id : Nat)
    (p : UpdateFields) :
    ∀ (events : List Event) (i : Nat) (e : Event), events[i]? = some e →
      ∃ e2, ((update_event stamp event_id p events).1)[i]? = some e2 ∧
        e2.alert_triggered = e.alert_triggered := by
  intro events
  induction events with
  | nil => intro i e hi; simp at hi
  | cons x xs ih =>
    intro i e hi
    by_cases hx : x.id = event_id
    · cases i with
      | zero =>
        have hxe : x = e := by simpa using hi
        subst hxe
        exact ⟨{ mergeFields p x with last_modified := some stamp },
          by simp [update_event, hx], by simp [mergeFields]⟩
      | succ j =>
        have hj : xs[j]? = some e := by simpa using hi
        exact ⟨e, by simp [update_event, hx, hj], rfl⟩
    · cases i with
      | zero =>
        have hxe : x = e := by simpa using hi
        subst hxe
        exact ⟨x, by simp [update_event, hx], rfl⟩
      | succ j =>
        have hj : xs[j]? = some e := by simpa using hi
        obtain ⟨e2, hg, he⟩ := ih j e hj
        exact ⟨e2, by simp [update_event, hx, hg], he⟩

lemma delete_event_subset (event_id : Nat) :
    ∀ (events : List Event) (e2 : Event),
      e2 ∈ (delete_event event_id events).1 → e2 ∈ events := by
  intro events
  induction events with
  | nil => intro e2 h; simp [delete_event] at h
  | cons x xs ih =>
    intro e2 h
    by_cases hx : x.id = event_id
    · have hd : (delete_event event_id (x :: xs)).1 = xs := by
        simp [delete_event, hx]
      rw [hd] at h
      exact List.mem_cons_of_mem x h
    · have hd : (delete_event event_id (x :: xs)).1 =
          x :: (delete_event event_id xs).1 := by
        simp [delete_event, hx]
      rw [hd] at h
      rcases List.mem_cons.mp h with h1 | h1
      · exact h1 ▸ List.mem_cons_self x xs
      · exact List.mem_cons_of_mem x (ih e2 h1)

/-- C3: a triggered event is never fired again by either evaluator, in
the same pass or any sequence of later passes; every firing event is
marked triggered; `reset_alerts_for_today` clears the flag for exactly
the events dated today; and no other store operation (create, update,
delete in either front end, or evaluation itself) takes the flag back to
false. -/
theorem triggered_monotone_until_reset :
    (∀ (now : Instant) (e : Event), e.alert_triggered = true →
      stepApp now e = (e, none) ∧ stepWeb now e = (e, none))
    ∧ (∀ (nows : List Instant) (events : List Event) (i : Nat) (e : Event),
        events[i]? = some e → e.alert_triggered = true →
        (runPassesApp nows events)[i]? = some e ∧
        (runPassesWeb nows events)[i]? = some e)
    ∧ (∀ (now : Instant) (e : Event),
        ((stepApp now e).2.isSome = true →
          ((stepApp now e).1).alert_triggered = true)
        ∧ ((stepWeb now e).2.isSome = true →
          ((stepWeb now e).1).alert_triggered = true))
    ∧ (∀ (today : String) (events : List Event) (i : Nat) (e : Event),
        events[i]? = some e →
        ((reset_alerts_for_today today events).1)[i]? =
          some (if e.date = today then { e with alert_triggered := false } else e))
    ∧ (∀ (now : Instant) (f : Fields) (events : List Event) (i : Nat) (e : Event),
        events[i]? = some e → ((add_event now f events).1)[i]? = some e)
    ∧ (∀ (stamp : String) (event_id : Nat) (p : UpdateFields)
        (events : List Event) (i : Nat) (e : Event),
        events[i]? = some e →
        ∃ e2, ((update_event stamp event_id p events).1)[i]? = some e2 ∧
          e2.alert_triggered = e.alert_triggered)
    ∧ (∀ (event_id : Nat) (events : List Event) (e2 : Event),
        e2 ∈ (delete_event event_id events).1 → e2 ∈ events)
    ∧ (∀ (event_id : Nat) (events : List Event) (e2 : Event),
        e2 ∈ (delete_event_route event_id events).1 → e2 ∈ events)
    ∧ (∀ (now : Instant) (events : List Event) (i : Nat) (e : Event),
        events[i]? = some e → e.alert_triggered = true →
        ((check_alerts_app now events).1)[i]? = some e ∧
        ((check_alerts_web now events).1)[i]? = some e) := by
  refine ⟨?_, ?_, ?_, ?_, ?_, ?_, ?_, ?_, ?_⟩
  · intro now e ht
    exact ⟨stepApp_triggered now e ht, stepWeb_triggered now e ht⟩
  · intro nows events i e hi ht
    exact ⟨runPassesApp_preserves_triggered nows events i e hi ht,
      runPassesWeb_preserves_triggered nows events i e hi ht⟩
  · intro now e
    exact ⟨stepApp_fired_marked now e, stepWeb_fired_marked now e⟩
  · intro today events i e hi
    simp [reset_alerts_for_today, hi]
  · intro now f events i e hi
    have hlt : i < events.length := List.getElem?_eq_some.mp hi |>.1
    simp [add_event, List.getElem?_append, hlt, hi]
  · intro stamp event_id p events i e hi
    exact update_event_preserves_triggered stamp event_id p events i e hi
  · intro event_id events e2 h
    exact delete_event_subset event_id events e2 h
  · intro event_id events e2 h
    exact List.mem_of_mem_filter h
  · intro now events i e hi ht
    exact ⟨check_app_preserves_triggered now events i e hi ht,
      check_web_preserves_triggered now events i e hi ht⟩

/-- Witness for C3: the already-triggered sample event is left untouched
and yields no alert. -/
theorem triggered_monotone_until_reset_witness :
    triggeredEvent.alert_triggered = true ∧
    stepApp sampleNow triggeredEvent = (triggeredEvent, none) ∧
    stepWeb sampleNow triggeredEvent = (triggeredEvent, none) := by
  have h := triggered_monotone_until_reset.1 sampleNow triggeredEvent (by decide)
  exact ⟨by decide, h.1, h.2⟩

/-! ## Characterisation of the time-slot parser -/

lemma char_ne_colon_of_digit {c : Char} (h : c.isDigit = true) : c ≠ ':' := by
  intro he
  rw [he] at h
  exact absurd h (by decide)

lemma digitsVal_one (a : Char) : digitsVal [a] = dv a := by
  simp [digitsVal]

lemma digitsVal_two (a b : Char) : digitsVal [a, b] = 10 * dv a + dv b := by
  simp [digitsVal]

lemma validHM_of_parse (l : List Char) (h : parseHM l ≠ none) : ValidHM l := by
  unfold parseHM at h
  split at h
  · rename_i a b c
    split at h
    · rename_i hg
      obtain ⟨hb, ha, hc, h24, h60⟩ := hg
      subst hb
      refine ⟨[a], [c], rfl, by simp, by simp, by simp, by simp, ?_, ?_, ?_, ?_⟩
      · simpa using ha
      · simpa using hc
      · simpa [digitsVal_one] using h24
      · simpa [digitsVal_one] using h60
    · exact absurd rfl h
  · rename_i a b c d
    split at h
    · rename_i hg
      obtain ⟨hb, ha, hc, hd, h24, h60⟩ := hg
      subst hb
      refine ⟨[a], [c, d], rfl, by simp, by simp, by simp, by simp, ?_, ?_, ?_, ?_⟩
      · simpa using ha
      · simpa using ⟨hc, hd⟩
      · simpa [digitsVal_one] using h24
      · simpa [digitsVal_two] using h60
    · split at h
      · rename_i hg
        obtain ⟨hcc, ha, hb, hd, h24, h60⟩ := hg
        subst hcc
        refine ⟨[a, b], [d], rfl, by simp, by simp, by simp, by simp, ?_, ?_, ?_, ?_⟩
        · simpa using ⟨ha, hb⟩
        · simpa using hd
        · simpa [digitsVal_two] using h24
        · simpa [digitsVal_one] using h60
      · exact absurd rfl h
  · rename_i a b c d e
    split at h
    · rename_i hg
      obtain ⟨hcc, ha, hb, hd, he, h24, h60⟩ := hg
      subst hcc
      refine ⟨[a, b], [d, e], rfl, by simp, by simp, by simp, by simp, ?_, ?_, ?_, ?_⟩
      · simpa using ⟨ha, hb⟩
      · simpa using ⟨hd, he⟩
      · simpa [digitsVal_two] using h24
      · simpa [digitsVal_two] using h60
    · exact absurd rfl h
  · exact absurd rfl h

lemma parse_of_validHM (l : List Char) (h : ValidHM l) : parseHM l ≠ none := by
  obtain ⟨ds1, ds2, hl, h1ne, h1len, h2ne, h2len, hd1, hd2, hv1, hv2⟩ := h
  subst hl
  rcases ds1 with _ | ⟨x, t1⟩
  · exact absurd rfl h1ne
  rcases t1 with _ | ⟨y, t2⟩
  · rcases ds2 with _ | ⟨u, s1⟩
    · exact absurd rfl h2ne
    rcases s1 with _ | ⟨v, s2⟩
    · have hx : x.isDigit = true := hd1 x (by simp)
      have hu : u.isDigit = true := hd2 u (by simp)
      have h24 : dv x < 24 := by simpa [digitsVal_one] using hv1
      have h60 : dv u < 60 := by simpa [digitsVal_one] using hv2
      simp [parseHM, hx, hu, h24, h60]
    rcases s2 with _ | ⟨w, s3⟩
    · have hx : x.isDigit = true := hd1 x (by simp)
      have hu : u.isDigit = true := hd2 u (by simp)
      have hv : v.isDigit = true := hd2 v (by simp)
      have h24 : dv x < 24 := by simpa [digitsVal_one] using hv1
      have h60 : 10 * dv u + dv v < 60 := by simpa [digitsVal_two] using hv2
      simp [parseHM, hx, hu, hv, h24, h60]
    · simp at h2len
  rcases t2 with _ | ⟨z, t3⟩
  · rcases ds2 with _ | ⟨u, s1⟩
    · exact absurd rfl h2ne
    rcases s1 with _ | ⟨v, s2⟩
    · have hx : x.isDigit = true := hd1 x (by simp)
      have hy : y.isDigit = true := hd1 y (by simp)
      have hu : u.isDigit = true := hd2 u (by simp)
      have h24 : 10 * dv x + dv y < 24 := by simpa [digitsVal_two] using hv1
      have h60 : dv u < 60 := by simpa [digitsVal_one] using hv2
      simp [parseHM, char_ne_colon_of_digit hy, hx, hy, hu, h24, h60]
    rcases s2 with _ | ⟨w, s3⟩
    · have hx : x.isDigit = true := hd1 x (by simp)
      have hy : y.isDigit = true := hd1 y (by simp)
      have hu : u.isDigit = true := hd2 u (by simp)
      have hv : v.isDigit = true := hd2 v (by simp)
      have h24 : 10 * dv x + dv y < 24 := by simpa [digitsVal_two] using hv1
      have h60 : 10 * dv u + dv v < 60 := by simpa [digitsVal_two] using hv2
      simp [parseHM, hx, hy, hu, hv, h24, h60]
    · simp at h2len
  · simp at h1len

lemma parseHM_none_iff (l : List Char) : parseHM l = none ↔ ¬ ValidHM l := by
  constructor
  · intro h hv
    exact parse_of_validHM l hv h
  · intro h
    by_contra hne
    exact h (validHM_of_parse l hne)

/-- C4 (amended): the parser returns no result exactly when the
substring before the first `-` (the whole string when no `-` is present),
once stripped of surrounding whitespace, is not a valid `HH:MM` time; on
such a failure the evaluator leaves that single event untouched, produces
no alert for it, and still processes all events before and after it. -/
theorem parse_failure_skips_event :
    (∀ ts : String, parse_time_slot ts = none ↔
      ¬ ValidHM (trimChars (beforeDash ts.data)))
    ∧ (∀ (now : Instant) (e : Event), parse_time_slot e.time_slot = none →
        stepApp now e = (e, none) ∧ stepWeb now e = (e, none))
    ∧ (∀ (now : Instant) (e : Event) (l1 l2 : List Event),
        parse_time_slot e.time_slot = none →
        (check_alerts_app now (l1 ++ e :: l2)).1 =
          (check_alerts_app now l1).1 ++ e :: (check_alerts_app now l2).1
        ∧ (check_alerts_app now (l1 ++ e :: l2)).2.1 =
          (check_alerts_app now l1).2.1 ++ (check_alerts_app now l2).2.1
        ∧ (check_alerts_web now (l1 ++ e :: l2)).2.1 =
          (check_alerts_web now l1).2.1 ++ (check_alerts_web now l2).2.1) := by
  refine ⟨?_, ?_, ?_⟩
  · intro ts
    simpa [parse_time_slot] using
      parseHM_none_iff (trimChars (beforeDash ts.data))
  · intro now e hp
    exact ⟨stepApp_skip now e hp, stepWeb_skip now e hp⟩
  · intro now e l1 l2 hp
    refine ⟨?_, ?_, ?_⟩
    · simp [check_alerts_app, stepApp_skip now e hp]
    · simp [check_alerts_app, stepApp_skip now e hp]
    · simp [check_alerts_web, stepWeb_skip now e hp]

/-- Witness for C4: "all day" does not parse, and the event carrying it
is skipped. -/
theorem parse_failure_skips_event_witness :
    parse_time_slot badSlotEvent.time_slot = none ∧
    stepApp sampleNow badSlotEvent = (badSlotEvent, none) :=
  ⟨by decide,
   ((parse_failure_skips_event.2.1) sampleNow badSlotEvent (by decide)).1⟩

/-- Counterexample for C4 as stated: "14:00" lacks a `-` separator, yet
the parser succeeds (the claim asserts it must return no result). -/
theorem parse_no_dash_counterexample :
    parse_time_slot "14:00" = some 50400 ∧ ('-' ∉ "14:00".data) :=
  ⟨by decide, by decide⟩

/-! ## Id assignment -/

lemma foldl_max_eq (xs : List Nat) :
    ∀ x : Nat, xs.foldl max x = max x (xs.foldr max 0) := by
  induction xs with
  | nil => intro x; simp
  | cons y ys ih =>
    intro x
    rw [List.foldl_cons, ih, List.foldr_cons, Nat.max_assoc]

lemma maxIds_eq_foldr (events : List Event) :
    maxIds events = (events.map (fun e => e.id)).foldr max 0 := by
  induction events with
  | nil => rfl
  | cons e es ih => simp [maxIds, ih]

lemma next_id_eq (events : List Event) : next_id events = maxIds events + 1 := by
  unfold next_id
  cases events with
  | nil => rfl
  | cons e es =>
    change (List.map (fun e => e.id) es).foldl max e.id + 1 = maxIds (e :: es) + 1
    rw [foldl_max_eq, maxIds_eq_foldr]
    simp

lemma next_id_eq_app (events : List Event) : next_id events = next_id_app events := by
  rw [next_id_eq, next_id_app]

lemma maxIds_append_single (events : List Event) (e : Event) :
    maxIds (events ++ [e]) = max (maxIds events) e.id := by
  induction events with
  | nil => simp [maxIds]
  | cons x xs ih => simp [maxIds, ih, Nat.max_assoc]

lemma runOps_adds_mono (ops : List StoreOp) :
    ∀ events : List Event, addsOnly ops = true →
      List.Pairwise (· < ·) ((runOps ops events).2) ∧
      ∀ a ∈ (runOps ops events).2, maxIds events < a := by
  induction ops with
  | nil => intro events _; simp [runOps]
  | cons op ops ih =>
    intro events hao
    cases op with
    | del i => simp [addsOnly] at hao
    | add now f =>
      have hao2 : addsOnly ops = true := by
        simpa [addsOnly] using hao
      have hid : ((add_event now f events).2.1).id = maxIds events + 1 := by
        simp [add_event, next_id_eq]
      have hst : maxIds ((add_event now f events).1) = maxIds events + 1 := by
        simp only [add_event]
        rw [maxIds_append_single]
        simp [next_id_eq]
      obtain ⟨hpw, hgt⟩ := ih ((add_event now f events).1) hao2
      rw [hst] at hgt
      constructor
      · simp only [runOps]
        refine List.Pairwise.cons ?_ hpw
        intro a ha
        have := hgt a ha
        rw [hid]
        omega
      · simp only [runOps]
        intro a ha
        rcases List.mem_cons.mp ha with h1 | h1
        · rw [h1, hid]; omega
        · have := hgt a h1; omega

/-- C2 (amended): a create assigns `id = max(existing ids, default 0) + 1`
(1 on an empty store, and the GUI and web id generators agree), and for
every delete-free sequence of creates the assigned ids are strictly
increasing (hence never reused); a delete of the highest id, however,
allows the next create to reuse it. -/
theorem create_ids_strictly_increasing :
    next_id [] = 1
    ∧ (∀ events : List Event,
        next_id events = maxIds events + 1 ∧ next_id events = next_id_app events)
    ∧ (∀ (now : Instant) (f : Fields) (events : List Event),
        ((add_event now f events).2.1).id = next_id events)
    ∧ (∀ (ops : List StoreOp) (events : List Event), addsOnly ops = true →
        List.Pairwise (· < ·) ((runOps ops events).2)) := by
  refine ⟨rfl, ?_, ?_, ?_⟩
  · intro events
    exact ⟨next_id_eq events, next_id_eq_app events⟩
  · intro now f events
    rfl
  · intro ops events hao
    exact (runOps_adds_mono ops events hao).1

/-- Witness for C2: two creates on the empty store assign ids 1 and 2. -/
theorem create_ids_strictly_increasing_witness :
    addsOnly addOnlyOps = true ∧
    List.Pairwise (· < ·) ((runOps addOnlyOps []).2) :=
  ⟨by decide, create_ids_strictly_increasing.2.2.2 addOnlyOps [] (by decide)⟩

/-- Counterexample for C2 as stated: create, create, delete id 2, create
assigns the id sequence 1, 2, 2 — the id 2 is reused after the deletion,
and the assigned sequence is not strictly increasing. -/
theorem id_reuse_counterexample :
    (runOps reuseOps []).2 = [1, 2, 2] ∧
    ¬ List.Pairwise (· < ·) ((runOps reuseOps []).2) :=
  ⟨by decide, by decide⟩

/-! ## Persistence behaviour of an evaluation pass -/

lemma step_isSome_eq (now : Instant) (e : Event) :
    (stepApp now e).2.isSome = (stepWeb now e).2.isSome := by
  by_cases hd : e.date = now.date
  · by_cases ht : e.alert_triggered = true
    · rw [stepApp_triggered now e ht, stepWeb_triggered now e ht]
      rfl
    · have ht2 : e.alert_triggered = false := by simpa using ht
      cases hp : parse_time_slot e.time_slot with
      | none =>
        rw [stepApp_skip now e hp, stepWeb_skip now e hp]
        rfl
      | some s =>
        rw [stepApp_window now e s hd ht2 hp, stepWeb_window now e s hd ht2 hp]
        by_cases hw : ((s : Int) - e.alert_minutes * 60 ≤ (now.sec : Int) ∧
            (now.sec : Int) < (s : Int))
        · rw [if_pos hw, if_pos hw]
          rfl
        · rw [if_neg hw, if_neg hw]
          rfl
  · rw [stepApp_stale now e hd, stepWeb_stale now e hd]
    rfl

lemma fired_length_eq (now : Instant) (events : List Event) :
    (events.filterMap (fun e => (stepWeb now e).2)).length =
      (events.filterMap (fun e => (stepApp now e).2)).length := by
  induction events with
  | nil => rfl
  | cons x xs ih =>
    have h := step_isSome_eq now x
    cases ha : (stepApp now x).2 with
    | none =>
      cases hw : (stepWeb now x).2 with
      | none => simp [List.filterMap_cons, ha, hw, ih]
      | some y => rw [ha, hw] at h; simp at h
    | some y =>
      cases hw : (stepWeb now x).2 with
      | none => rw [ha, hw] at h; simp at h
      | some z => simp [List.filterMap_cons, ha, hw, ih]

/-- C6 (amended): in every pass each firing event is marked triggered in
the returned store before the pass returns; both evaluators fire the same
number of events; the web route persists exactly once when at least one
alert fired and not at all otherwise, while the GUI evaluator persists
once per fired event, so a pass firing two events writes the file
twice. -/
theorem persistence_per_pass (now : Instant) (events : List Event) :
    ((check_alerts_app now events).2.2 =
      if (check_alerts_app now events).2.1.isEmpty then 0 else 1)
    ∧ ((check_alerts_web now events).2.2 =
        (check_alerts_web now events).2.1.length)
    ∧ ((check_alerts_web now events).2.1.length =
        (check_alerts_app now events).2.1.length)
    ∧ (∀ (i : Nat) (e : Event), events[i]? = some e →
        (stepApp now e).2.isSome = true →
        ∃ e2, ((check_alerts_app now events).1)[i]? = some e2 ∧
          e2.alert_triggered = true)
    ∧ (∀ (i : Nat) (e : Event), events[i]? = some e →
        (stepWeb now e).2.isSome = true →
        ∃ e2, ((check_alerts_web now events).1)[i]? = some e2 ∧
          e2.alert_triggered = true) := by
  refine ⟨rfl, rfl, ?_, ?_, ?_⟩
  · simpa [check_alerts_app, check_alerts_web] using fired_length_eq now events
  · intro i e hi hf
    refine ⟨(stepApp now e).1, ?_, stepApp_fired_marked now e hf⟩
    rw [check_app_get, hi]
    rfl
  · intro i e hi hf
    refine ⟨(stepWeb now e).1, ?_, stepWeb_fired_marked now e hf⟩
    rw [check_web_get, hi]
    rfl

/-- Witness for C6: the firing sample event is marked in the returned
store. -/
theorem persistence_per_pass_witness :
    ([sampleEvent] : List Event)[0]? = some sampleEvent ∧
    (stepApp sampleNow sampleEvent).2.isSome = true ∧
    ∃ e2, ((check_alerts_app sampleNow [sampleEvent]).1)[0]? = some e2 ∧
      e2.alert_triggered = true :=
  ⟨by decide, by decide,
   (persistence_per_pass sampleNow [sampleEvent]).2.2.2.1 0 sampleEvent
     (by decide) (by decide)⟩

/-- C6 counterexample: a GUI evaluation pass over two firing events
persists the store twice — once per fired event — where the claim
requires exactly one persist for the whole pass. -/
theorem per_event_save_counterexample :
    (check_alerts_web sampleNow [sampleEvent, sampleEvent2]).2.1.length = 2 ∧
    (check_alerts_web sampleNow [sampleEvent, sampleEvent2]).2.2 = 2 ∧
    (check_alerts_web sampleNow [sampleEvent, sampleEvent2]).2.2 ≠ 1 :=
  ⟨by decide, by decide, by decide⟩

/-! ## Update frame conditions -/

/-- C7: an update of a present id changes exactly the supplied fields and
stamps `last_modified`; every unsupplied field keeps its previous value,
the fields outside the update surface are untouched, and every other
record in the store is unchanged. -/
theorem update_changes_only_supplied (stamp : String) (event_id : Nat)
    (p : UpdateFields) (events : List Event)
    (h : (update_event stamp event_id p events).2.1 = true) :
    UpdateOutcome stamp event_id p events := by
  induction events with
  | nil => simp [update_event] at h
  | cons x xs ih =>
    by_cases hx : x.id = event_id
    · refine ⟨0, x, { mergeFields p x with last_modified := some stamp },
        by simp, hx, ?_, ?_, ?_, ?_⟩
      · simp [update_event, hx]
      · intro j hj
        cases j with
        | zero => exact absurd rfl hj
        | succ k => simp [update_event, hx]
      · simp [update_event, hx]
      · simp [FieldsMerged, mergeFields]
    · have h2 : (update_event stamp event_id p xs).2.1 = true := by
        simpa [update_event, hx] using h
      obtain ⟨i, e, e2, hi, hid, hlen, hframe, hget, hfm⟩ := ih h2
      refine ⟨i + 1, e, e2, by simpa using hi, hid, ?_, ?_, ?_, hfm⟩
      · simpa [update_event, hx] using hlen
      · intro j hj
        cases j with
        | zero => simp [update_event, hx]
        | succ k =>
          have hk : k ≠ i := fun he => hj (by rw [he])
          simpa [update_event, hx] using hframe k hk
      · simpa [update_event, hx] using hget

/-- Witness for C7: updating only the client of the sample event. -/
theorem update_changes_only_supplied_witness :
    (update_event "2026-10-12 16:00:00" 1 clientUpdate [sampleEvent]).2.1 = true ∧
    UpdateOutcome "2026-10-12 16:00:00" 1 clientUpdate [sampleEvent] :=
  ⟨by decide,
   update_changes_only_supplied "2026-10-12 16:00:00" 1 clientUpdate
     [sampleEvent] (by decide)⟩

/-! ## Absent ids -/

lemma update_event_absent (stamp : String) (event_id : Nat) (p : UpdateFields) :
    ∀ events : List Event, (∀ e ∈ events, e.id ≠ event_id) →
      update_event stamp event_id p events = (events, false, 0) := by
  intro events
  induction events with
  | nil => intro _; rfl
  | cons x xs ih =>
    intro h
    have hx : x.id ≠ event_id := h x (List.mem_cons_self x xs)
    have hxs : ∀ e ∈ xs, e.id ≠ event_id :=
      fun e he => h e (List.mem_cons_of_mem x he)
    simp [update_event, hx, ih hxs]

lemma delete_event_absent (event_id : Nat) :
    ∀ events : List Event, (∀ e ∈ events, e.id ≠ event_id) →
      delete_event event_id events = (events, false, 0) := by
  intro events
  induction events with
  | nil => intro _; rfl
  | cons x xs ih =>
    intro h
    have hx : x.id ≠ event_id := h x (List.mem_cons_self x xs)
    have hxs : ∀ e ∈ xs, e.id ≠ event_id :=
      fun e he => h e (List.mem_cons_of_mem x he)
    simp [delete_event, hx, ih hxs]

/-- C8 (amended): update and delete of an absent id leave the collection
unchanged; the GUI update and delete report the failure by returning
`False` without writing the file, and the web edit route reports "Event
not found", but the web delete route reports the unconditional success
message (it performs no absent-id check), while still leaving the
collection unchanged. -/
theorem absent_id_is_noop (event_id : Nat) (events : List Event)
    (h : ∀ e ∈ events, e.id ≠ event_id) :
    (∀ (stamp : String) (p : UpdateFields),
      update_event stamp event_id p events = (events, false, 0))
    ∧ delete_event event_id events = (events, false, 0)
    ∧ (delete_event_route event_id events).1 = events
    ∧ (delete_event_route event_id events).2.1 = "Event deleted successfully!" := by
  refine ⟨?_, delete_event_absent event_id events h, ?_, rfl⟩
  · intro stamp p
    exact update_event_absent stamp event_id p events h
  · simp only [delete_event_route]
    exact List.filter_eq_self.mpr (fun a ha => by simpa using h a ha)

/-- Witness for C8: deleting id 99 from a store holding only id 1. -/
theorem absent_id_is_noop_witness :
    (∀ e ∈ [sampleEvent], e.id ≠ 99) ∧
    delete_event 99 [sampleEvent] = ([sampleEvent], false, 0) :=
  ⟨by decide, (absent_id_is_noop 99 [sampleEvent] (by decide)).2.1⟩

/-- C8 counterexample: the web delete route, asked to delete the absent
id 99, leaves the store unchanged but reports the success message — not
the boolean false / "not found" outcome the claim requires. -/
theorem delete_route_reports_success_counterexample :
    (∀ e ∈ [sampleEvent], e.id ≠ 99) ∧
    (delete_event_route 99 [sampleEvent]).1 = [sampleEvent] ∧
    (delete_event_route 99 [sampleEvent]).2.1 = "Event deleted successfully!" :=
  ⟨by decide, by decide, by decide⟩

/-! ## CSV export outcomes -/

/-- C9 (amended): export of an empty store reports the distinct
"nothing to export" outcome and produces no table; export of a non-empty
store produces the header (the first record's field names in store
order) plus one data row per record, each row as wide as the header, as
long as every record's fields are among the first record's — a later
record missing a header column is filled with the empty string, but a
later record carrying a field outside the header (for example
`last_modified` stamped by an update after the first record was created)
makes `DictWriter` raise, and no export is produced. -/
theorem export_header_and_rows :
    export_csv [] = ExportResult.noEvents
    ∧ (∀ (e : Event) (events : List Event),
        (∀ x ∈ e :: events, ∀ q ∈ Event.toRecord x,
          ((Event.toRecord e).map Prod.fst).contains q.1 = true) →
        ∃ rows, export_csv (e :: events) =
            ExportResult.ok ((Event.toRecord e).map Prod.fst) rows ∧
          rows.length = events.length + 1 ∧
          ∀ r ∈ rows, r.length = ((Event.toRecord e).map Prod.fst).length)
    ∧ (∀ (e : Event) (events : List Event) (x : Event) (q : String × Val),
        x ∈ e :: events → q ∈ Event.toRecord x →
        ((Event.toRecord e).map Prod.fst).contains q.1 = false →
        export_csv (e :: events) = ExportResult.fieldError) := by
  refine ⟨rfl, ?_, ?_⟩
  · intro e events hsub
    have hall : (((e :: events).map Event.toRecord).all
        (fun r => r.all
          (fun q => ((Event.toRecord e).map Prod.fst).contains q.1))) = true := by
      rw [List.all_eq_true]
      intro r hr
      rw [List.all_eq_true]
      intro q hq
      obtain ⟨x, hx, hxr⟩ := List.mem_map.mp hr
      exact hsub x hx q (hxr ▸ hq)
    refine ⟨((e :: events).map Event.toRecord).map
        (rowOf ((Event.toRecord e).map Prod.fst)), ?_, ?_, ?_⟩
    · simp only [export_csv]
      rw [if_pos hall]
    · simp
    · intro r hr
      obtain ⟨rec, hrec, hr2⟩ := List.mem_map.mp hr
      rw [← hr2]
      simp [rowOf]
  · intro e events x q hx hq hcon
    have hbad : ¬ (((e :: events).map Event.toRecord).all
        (fun r => r.all
          (fun q => ((Event.toRecord e).map Prod.fst).contains q.1))) = true := by
      rw [List.all_eq_true]
      intro hforall
      have h1 := hforall (Event.toRecord x) (List.mem_map_of_mem Event.toRecord hx)
      rw [List.all_eq_true] at h1
      have h2 := h1 q hq
      rw [hcon] at h2
      exact absurd h2 (by decide)
    simp only [export_csv]
    rw [if_neg hbad]

/-- Witness for C9: a single-record store exports with its own keys as
header. -/
theorem export_header_and_rows_witness :
    (∀ x ∈ [sampleEvent], ∀ q ∈ Event.toRecord x,
      ((Event.toRecord sampleEvent).map Prod.fst).contains q.1 = true) ∧
    ∃ rows, export_csv [sampleEvent] =
        ExportResult.ok ((Event.toRecord sampleEvent).map Prod.fst) rows ∧
      rows.length = 0 + 1 ∧
      ∀ r ∈ rows, r.length = ((Event.toRecord sampleEvent).map Prod.fst).length :=
  ⟨by decide, export_header_and_rows.2.1 sampleEvent [] (by decide)⟩

/-- C9 counterexample: a store whose first record has no `last_modified`
while a later record (updated since) carries it: the field sets differ
only slightly, yet the export is not produced — `DictWriter` raises. -/
theorem export_extra_field_counterexample :
    sampleEvent.last_modified = none ∧
    updatedEvent.last_modified ≠ none ∧
    export_csv [sampleEvent, updatedEvent] = ExportResult.fieldError :=
  ⟨by decide, by decide, by decide⟩

/-! ## The list/filter query is read-only -/

lemma view_events_result (dateF clientF : Option String) (events : List Event) :
    (view_events dateF clientF events).2.1 =
      (events.filter (matchesFilter dateF clientF)).mergeSort tsDesc := by
  cases dateF with
  | none =>
    cases clientF with
    | none =>
      simp only [view_events]
      rw [List.filter_eq_self.mpr (fun a _ => by simp [matchesFilter])]
    | some c =>
      simp only [view_events]
      congr 1
  | some d =>
    cases clientF with
    | none =>
      simp only [view_events]
      congr 1
      all_goals
        apply List.filter_congr
        intro a _
        simp [matchesFilter]
    | some c =>
      simp only [view_events, List.filter_filter]
      congr 1
      all_goals
        apply List.filter_congr
        intro a _
        simp [matchesFilter, Bool.and_comm]

/-- C10: the list/filter query mutates nothing and writes nothing: it
returns the store unchanged, performs zero file writes, and its result is
a permutation of exactly the records matching the date and
case-insensitive client-substring filters, ordered by timestamp
descending. -/
theorem view_events_read_only (dateF clientF : Option String)
    (events : List Event) :
    (view_events dateF clientF events).1 = events
    ∧ (view_events dateF clientF events).2.2 = 0
    ∧ ((view_events dateF clientF events).2.1).Perm
        (events.filter (matchesFilter dateF clientF))
    ∧ List.Pairwise (fun a b : Event => b.timestamp ≤ a.timestamp)
        ((view_events dateF clientF events).2.1) := by
  refine ⟨rfl, rfl, ?_, ?_⟩
  · rw [view_events_result]
    exact List.mergeSort_perm _ tsDesc
  · rw [view_events_result]
    have hpw := @List.sorted_mergeSort Event tsDesc
      (fun a b c hab hbc => by
        simp only [tsDesc, decide_eq_true_eq] at *
        exact le_trans hbc hab)
      (fun a b => by
        simp only [tsDesc, Bool.or_eq_true, decide_eq_true_eq]
        exact le_total b.timestamp a.timestamp)
      (events.filter (matchesFilter dateF clientF))
    exact hpw.imp (fun h => by simpa [tsDesc] using h)
